import Mathlib

/-!
Shallow embedding of `s3prl/downstream/asr/dataset.py` (classes
`SequenceDataset` and `HiddenDataset`) together with proofs about the
bucketing, transcript-normalization, encoding, collation and audio-loading
logic.  Python strings are modelled as Lean `String`s (lists of
characters), Python dicts as `String → Option _` functions, Python
exceptions as `Except` values.
-/

/-- Errors a Python snippet can raise: `RuntimeError` (what
`torchaudio.load` raises on failure) and `AssertionError` (what a failed
`assert` raises). -/
inductive PyError where
  | runtimeError : PyError
  | assertionError : PyError
deriving DecidableEq, Repr

/-- Python `str.split(sep)` for a one-character separator: splits at every
occurrence of the separator and keeps empty pieces, so the result is always
non-empty. -/
def splitChar (sep : Char) : List Char → List (List Char)
  | [] => [[]]
  | c :: cs =>
    match splitChar sep cs with
    | [] => [[]]
    | w :: ws => if c = sep then [] :: w :: ws else (c :: w) :: ws

/-- The characters Python `str.split()` (no separator argument) treats as
whitespace, restricted to ASCII. -/
def isPyWhitespace (c : Char) : Bool :=
  c = ' ' || c = '\t' || c = '\n' || c = '\r' || c = '\x0b' || c = '\x0c'

/-- Accumulator worker for `pySplit`: `acc` holds the reversed characters of
the word currently being read. -/
def pySplitAux : List Char → List Char → List (List Char)
  | [], acc => if acc.isEmpty then [] else [acc.reverse]
  | c :: cs, acc =>
    if isPyWhitespace c then
      if acc.isEmpty then pySplitAux cs [] else acc.reverse :: pySplitAux cs []
    else pySplitAux cs (c :: acc)

/-- Python `str.split()` with no argument: splits on runs of whitespace and
drops empty pieces. -/
def pySplit (l : List Char) : List (List Char) :=
  pySplitAux l []

/-- `SequenceDataset._parse_x_name`:
`x.split('/')[-1].split('.')[0]` — the file name without directories and
without everything from the first dot on. -/
def parseXName (x : String) : String :=
  ⟨(splitChar '.' ((splitChar '/' x.data).getLastD [])).headD []⟩

/-- Python `str.upper()`, character by character (ASCII). -/
def pyUpper (s : String) : String :=
  ⟨s.data.map Char.toUpper⟩

/-- Python `str.replace(" ", "|")`: for a one-character pattern this is a
character-wise map. -/
def pyReplaceSpaceWithBar (s : String) : String :=
  ⟨s.data.map (fun c => if c = ' ' then '|' else c)⟩

/-- Python `" ".join(list(s))` applied to the character list of `s`:
interleaves a single space between consecutive characters. -/
def pyJoinSpaced (l : List Char) : String :=
  ⟨List.intersperse ' ' l⟩

/-- `SequenceDataset._load_transcript.process_trans`:
`" ".join(list(transcript.upper().replace(" ", "|"))) + " |"`. -/
def seqProcessTrans (t : String) : String :=
  pyJoinSpaced ((pyReplaceSpaceWithBar (pyUpper t)).data) ++ " |"

/-- `HiddenDataset.__init__.process_trans`:
`" ".join(list("|".join(transcript.upper().split()))) + " |"`. -/
def hiddenProcessTrans (t : String) : String :=
  pyJoinSpaced (List.intercalate ['|'] (pySplit (pyUpper t).data)) ++ " |"

/-- Python `max(l)` on a list of naturals (the durations are non-negative
integers, so the `0` default never matters on the non-empty lists the code
applies it to). -/
def listMax (l : List Nat) : Nat :=
  l.foldl Nat.max 0

/-- `HALF_BATCHSIZE_TIME` from the source. -/
def HALF_BATCHSIZE_TIME : Nat := 2000

/-- The loop state of the bucketing loop in `SequenceDataset.__init__`:
`(self.X, batch_x, batch_len)`. -/
abbrev BucketState := List (List String) × List String × List Nat

/-- One iteration of the bucketing loop in `SequenceDataset.__init__`
(lines 87-100): skip the item unless its parsed name is usable, otherwise
append it to the running batch; when the batch reaches `bucket_size`,
flush it — split into `batch_x[:bucket_size//2]` and
`batch_x[bucket_size//2:]` when `bucket_size >= 2` and
`max(batch_len) > HALF_BATCHSIZE_TIME`, otherwise as a single bucket. -/
def bucketStep (usable : String → Bool) (bucket_size : Nat)
    (st : BucketState) (item : String × Nat) : BucketState :=
  if usable (parseXName item.1) then
    let batch_x := st.2.1 ++ [item.1]
    let batch_len := st.2.2 ++ [item.2]
    if batch_x.length = bucket_size then
      if 2 ≤ bucket_size ∧ HALF_BATCHSIZE_TIME < listMax batch_len then
        (st.1 ++ [batch_x.take (bucket_size / 2), batch_x.drop (bucket_size / 2)],
          [], [])
      else
        (st.1 ++ [batch_x], [], [])
    else
      (st.1, batch_x, batch_len)
  else
    st

/-- The whole bucketing loop: fold `bucketStep` over the (already sorted)
duration table `items = zip(X, X_lens)`, starting from empty `self.X`,
`batch_x`, `batch_len`. -/
def bucketLoopState (usable : String → Bool) (bucket_size : Nat)
    (items : List (String × Nat)) : BucketState :=
  items.foldl (bucketStep usable bucket_size) ([], [], [])

/-- The bucket list `self.X` right after the loop, before the final
"gather the last batch" step. -/
def loopBuckets (usable : String → Bool) (bucket_size : Nat)
    (items : List (String × Nat)) : List (List String) :=
  (bucketLoopState usable bucket_size items).1

/-- The leftover `batch_x` after the loop. -/
def loopLeftover (usable : String → Bool) (bucket_size : Nat)
    (items : List (String × Nat)) : List String :=
  (bucketLoopState usable bucket_size items).2.1

/-- Whether the parsed name of the *last* entry of the duration table is
usable — the condition the source re-tests (with the stale loop variable
`x`) before appending the leftover batch. -/
def lastEntryUsable (usable : String → Bool) (items : List (String × Nat)) : Bool :=
  match items.getLast? with
  | some p => usable (parseXName p.1)
  | none => false

/-- `SequenceDataset.__init__` bucketing, lines 84-105: the loop followed by
"gather the last batch": `if len(batch_x) > 1: if parse(x) in usage_list:
self.X.append(batch_x)` where `x` is the last item the `for` loop iterated
over (the last entry of the duration table, usable or not). -/
def buildBuckets (usable : String → Bool) (bucket_size : Nat)
    (items : List (String × Nat)) : List (List String) :=
  let st := bucketLoopState usable bucket_size items
  if 1 < st.2.1.length then
    if lastEntryUsable usable items then st.1 ++ [st.2.1] else st.1
  else
    st.1

/-- The number of duration-table entries whose parsed key is usable
(`N'` in the spec). -/
def usableCount (usable : String → Bool) (items : List (String × Nat)) : Nat :=
  (items.filter (fun p => usable (parseXName p.1))).length

/-- The usable-key test of `SequenceDataset.__init__` (lines 71-73): a key
is usable iff it is the parsed name of some audio file *and* has a loaded
transcript.  `transcripts` models the dict returned by `_load_transcript`. -/
def usableKey (X : List String) (transcripts : String → Option String)
    (k : String) : Bool :=
  (X.map parseXName).contains k && (transcripts k).isSome

/-- The encoded-label dict `self.Y` of `SequenceDataset.__init__`
(lines 75-81): defined exactly on the usable keys, holding the encoded
transcript.  `enc` models `dictionary.encode_line(·).long()`. -/
def selfY (X : List String) (transcripts : String → Option String)
    (enc : String → List Nat) (k : String) : Option (List Nat) :=
  if usableKey X transcripts k then (transcripts k).map enc else none

/-- `SequenceDataset.__getitem__` on one bucket (lines 155-159): load every
member's waveform and look up every member's encoded label.  `loadWav`
models `_load_wav`; the label lookup is `self.Y[self._parse_x_name(x)]`,
modelled as an `Option` lookup in the `selfY` map. -/
def seqGetitem {W : Type} (loadWav : String → W) (X : List String)
    (transcripts : String → Option String) (enc : String → List Nat)
    (bucket : List String) : List W × List (Option (List Nat)) :=
  (bucket.map loadWav, bucket.map (fun x => selfY X transcripts enc (parseXName x)))

/-- `SequenceDataset.collate_fn` (lines 161-163): `assert len(items) == 1`,
then return `items[0][0], items[0][1]`. -/
def collate_fn {A B : Type} (items : List (A × B)) : Except PyError (A × B) :=
  match items with
  | [p] => .ok (p.1, p.2)
  | _ => .error .assertionError

/-- Modelled from the spec: `Dictionary.encode_line` (the class lives in
`s3prl/downstream/asr/dictionary.py`, which is not part of the given
sources).  Per §4.1 it maps each token of the tokenized line to its index,
absent tokens (with `add_if_not_exist=False`) to the reserved unknown
index, and optionally appends a trailing end-of-sequence id depending on
configuration.  `lookup` is the symbol→index map of the finalized
dictionary restricted to known symbols. -/
def encode_line (lookup : String → Option Nat) (unk_index eos_index : Nat)
    (appendEos : Bool) (tokens : List String) : List Nat :=
  (tokens.map (fun t => (lookup t).getD unk_index)) ++
    (if appendEos then [eos_index] else [])

/-- The tokenizer the source passes to `encode_line`:
`line_tokenizer=lambda x: x.split()`. -/
def pyStrSplit (y : String) : List String :=
  (pySplit y.data).map (fun w => ⟨w⟩)

/-- One entry of `HiddenDataset.Y_encoded` (lines 190-201): encode the
normalized transcript and keep only the ids different from
`self.dictionary.unk_index`. -/
def hiddenEncode (lookup : String → Option Nat) (unk_index eos_index : Nat)
    (appendEos : Bool) (y : String) : List Nat :=
  (encode_line lookup unk_index eos_index appendEos (pyStrSplit y)).filter
    (fun idx => idx ≠ unk_index)

/-- The segment-file name `HiddenDataset._load_wav` builds in its recovery
path: `"".join(wav_path.split(".")[:-1]) + tag + "." + wav_path.split(".")[-1]`
with `tag` being `"_(1)"` or `"_(2)"`. -/
def segmentPath (wav_path : String) (tag : String) : String :=
  ⟨List.flatten ((splitChar '.' wav_path.data).dropLast)⟩ ++ tag ++ "." ++
    ⟨(splitChar '.' wav_path.data).getLastD []⟩

/-- `HiddenDataset._load_wav` (lines 203-219).  `load` models
`torchaudio.load` (returning a waveform and its sample rate, or raising
`RuntimeError`, modelled as `.error ()`); `cat` models
`torch.cat(·, dim=-1)` and `meanResample` the channel-mean plus
`self.resample` post-processing — both abstract, since they are external
torch operations.  The `try` block catches only `RuntimeError`, so a failed
`assert sr == self.sample_rate` (an `AssertionError`) propagates. -/
def hidden_load_wav {W : Type} (load : String → Except Unit (W × Nat))
    (cat : W → W → W) (meanResample : W → W) (sample_rate : Nat)
    (wav_path : String) : Except PyError W :=
  let tryBlock : Except PyError W :=
    match load wav_path with
    | .ok (wav, sr) =>
      if sr = sample_rate then .ok wav else .error .assertionError
    | .error _ =>
      match load (segmentPath wav_path "_(1)") with
      | .error _ => .error .runtimeError
      | .ok (wav1, sr1) =>
        match load (segmentPath wav_path "_(2)") with
        | .error _ => .error .runtimeError
        | .ok (wav2, sr2) =>
          if sr1 = sample_rate then
            if sr2 = sample_rate then .ok (cat wav1 wav2)
            else .error .assertionError
          else .error .assertionError
  match tryBlock with
  | .ok wav => .ok (meanResample wav)
  | .error e => .error e

/-- Invariant of the bucketing loop after `n` usable items have been
consumed: the running batch holds `n % B` items, at most `2 * (n / B)`
buckets have been flushed, every flushed bucket has at most `B` members,
and all accumulated file names have usable parsed keys. -/
def goodState (usable : String → Bool) (B n : Nat) (st : BucketState) : Prop :=
  st.2.1.length = n % B ∧
  st.1.length ≤ 2 * (n / B) ∧
  (∀ b ∈ st.1, b.length ≤ B) ∧
  (∀ b ∈ st.1, ∀ x ∈ b, usable (parseXName x) = true) ∧
  (∀ x ∈ st.2.1, usable (parseXName x) = true)

/-! ### Concrete fixtures for counterexamples and witnesses -/

/-- A concrete usable-key test for which only `a` and `b` are usable. -/
def usableAB : String → Bool := fun s => s == "a" || s == "b"

/-- A usable-key test that accepts every key. -/
def usableAll : String → Bool := fun _ => true

/-- A concrete four-entry audio index (files `a`–`d` in one directory). -/
def exampleX : List String := ["s/a.flac", "s/b.flac", "s/c.flac", "s/d.flac"]

/-- A concrete transcript table: `a`, `b`, `c` have transcripts, `d` does
not. -/
def exampleTranscripts : String → Option String := fun k =>
  if k = "a" || k = "b" || k = "c" then some "T" else none

/-- A model of `torchaudio.load` where the primary file loads at the wrong
sample rate while both recovery segments load at the right rate. -/
def loadMismatch : String → Except Unit (Nat × Nat) := fun s =>
  if s = "x.wav" then .ok (7, 22050)
  else if s = "x_(1).wav" then .ok (1, 44100)
  else if s = "x_(2).wav" then .ok (2, 44100)
  else .error ()

/-- A model of `torchaudio.load` where the primary file fails to load while
both recovery segments load at the right rate. -/
def loadRecover : String → Except Unit (Nat × Nat) := fun s =>
  if s = "y_(1).wav" then .ok (1, 44100)
  else if s = "y_(2).wav" then .ok (2, 44100)
  else .error ()

/-- A model of `torchaudio.load` where every file — the primary and both
recovery segments included — fails to load. -/
def loadAllFail : String → Except Unit (Nat × Nat) := fun _ => .error ()

/-- A model of `torchaudio.load` where the primary file fails to load and
the first recovery segment loads at the wrong sample rate. -/
def loadSegMismatch : String → Except Unit (Nat × Nat) := fun s =>
  if s = "w_(1).wav" then .ok (1, 22050)
  else if s = "w_(2).wav" then .ok (2, 44100)
  else .error ()

/-- An example dictionary lookup: only the symbol `A` is known, at index 5
(unknown index 3, end-of-sequence index 2 in the theorems using it). -/
def exampleLookup : String → Option Nat := fun t =>
  if t = "A" then some 5 else none

/-! ### Arithmetic helpers for the bucket-count bounds -/

theorem succ_div_mod_of_mod_eq_pred {n B : Nat} (hB : 0 < B)
    (hr : n % B = B - 1) : (n + 1) % B = 0 ∧ (n + 1) / B = n / B + 1 := by
  have h := Nat.div_add_mod n B
  have hn1 : n + 1 = B * (n / B + 1) := by
    rw [Nat.mul_add, Nat.mul_one]
    generalize B * (n / B) = M at h ⊢
    omega
  constructor
  · rw [hn1]
    exact Nat.mul_mod_right B _
  · rw [hn1, Nat.mul_div_cancel_left _ hB]

theorem succ_div_mod_of_mod_lt_pred {n B : Nat} (hB : 0 < B)
    (hr : n % B + 1 < B) : (n + 1) % B = n % B + 1 ∧ (n + 1) / B = n / B := by
  have h := Nat.div_add_mod n B
  have hn1 : n + 1 = (n % B + 1) + B * (n / B) := by
    generalize B * (n / B) = M at h ⊢
    omega
  constructor
  · rw [hn1, Nat.add_mul_mod_self_left, Nat.mod_eq_of_lt hr]
  · rw [hn1, Nat.add_mul_div_left _ _ hB, Nat.div_eq_of_lt hr, Nat.zero_add]

theorem ceil_div_of_mod_ne_zero {n B : Nat} (hB : 0 < B)
    (hr : n % B ≠ 0) : (n + B - 1) / B = n / B + 1 := by
  have h := Nat.div_add_mod n B
  have hrlt : n % B < B := Nat.mod_lt n hB
  have hn1 : n + B - 1 = (n % B - 1) + B * (n / B + 1) := by
    rw [Nat.mul_add, Nat.mul_one]
    generalize B * (n / B) = M at h ⊢
    omega
  rw [hn1, Nat.add_mul_div_left _ _ hB, Nat.div_eq_of_lt (by omega), Nat.zero_add]

/-! ### The bucketing-loop invariant -/

theorem goodState_init (usable : String → Bool) (B : Nat) :
    goodState usable B 0 (([], [], []) : BucketState) := by
  refine ⟨?_, ?_, ?_, ?_, ?_⟩ <;> simp [goodState]

theorem goodState_step (usable : String → Bool) (B n : Nat)
    (st : BucketState) (item : String × Nat) (h : goodState usable B n st) :
    goodState usable B (n + (if usable (parseXName item.1) then 1 else 0))
      (bucketStep usable B st item) := by
  obtain ⟨hlen, hcount, hsize, hmem, hbatch⟩ := h
  by_cases hu : usable (parseXName item.1) = true
  · rw [if_pos hu]
    unfold bucketStep
    rw [if_pos hu]
    simp only []
    by_cases hfill : (st.2.1 ++ [item.1]).length = B
    · rw [if_pos hfill]
      have hB : 0 < B := by
        rw [List.length_append, List.length_singleton] at hfill
        omega
      have hr : n % B = B - 1 := by
        rw [List.length_append, List.length_singleton, hlen] at hfill
        omega
      obtain ⟨hmod, hdiv⟩ := succ_div_mod_of_mod_eq_pred hB hr
      have hmemfull : ∀ x ∈ st.2.1 ++ [item.1], usable (parseXName x) = true := by
        intro x hx
        rcases List.mem_append.mp hx with hx | hx
        · exact hbatch x hx
        · rcases List.mem_singleton.mp hx with rfl
          exact hu
      by_cases hsplit : 2 ≤ B ∧ HALF_BATCHSIZE_TIME < listMax (st.2.2 ++ [item.2])
      · rw [if_pos hsplit]
        refine ⟨by simpa using hmod.symm, ?_, ?_, ?_, by simp⟩
        · show (st.1 ++ [_, _]).length ≤ 2 * ((n + 1) / B)
          rw [List.length_append, hdiv]
          generalize n / B = q at hcount ⊢
          simp only [List.length_cons, List.length_nil]
          omega
        · intro b hb
          rcases List.mem_append.mp hb with hb | hb
          · exact hsize b hb
          · have hb2 : b = (st.2.1 ++ [item.1]).take (B / 2) ∨
                b = (st.2.1 ++ [item.1]).drop (B / 2) := by simpa using hb
            rcases hb2 with rfl | rfl
            · rw [List.length_take]
              omega
            · rw [List.length_drop, hfill]
              omega
        · intro b hb x hx
          rcases List.mem_append.mp hb with hb | hb
          · exact hmem b hb x hx
          · have hb2 : b = (st.2.1 ++ [item.1]).take (B / 2) ∨
                b = (st.2.1 ++ [item.1]).drop (B / 2) := by simpa using hb
            rcases hb2 with rfl | rfl
            · exact hmemfull x (List.mem_of_mem_take hx)
            · exact hmemfull x (List.mem_of_mem_drop hx)
      · rw [if_neg hsplit]
        refine ⟨by simpa using hmod.symm, ?_, ?_, ?_, by simp⟩
        · show (st.1 ++ [_]).length ≤ 2 * ((n + 1) / B)
          rw [List.length_append, hdiv]
          generalize n / B = q at hcount ⊢
          simp only [List.length_singleton]
          omega
        · intro b hb
          rcases List.mem_append.mp hb with hb | hb
          · exact hsize b hb
          · rcases List.mem_singleton.mp hb with rfl
            rw [hfill]
        · intro b hb x hx
          rcases List.mem_append.mp hb with hb | hb
          · exact hmem b hb x hx
          · rcases List.mem_singleton.mp hb with rfl
            exact hmemfull x hx
    · rw [if_neg hfill]
      have hbatchnew : ∀ x ∈ st.2.1 ++ [item.1], usable (parseXName x) = true := by
        intro x hx
        rcases List.mem_append.mp hx with hx | hx
        · exact hbatch x hx
        · rcases List.mem_singleton.mp hx with rfl
          exact hu
      rcases Nat.eq_zero_or_pos B with hB | hB
      · subst hB
        refine ⟨?_, ?_, hsize, hmem, hbatchnew⟩
        · show (st.2.1 ++ [item.1]).length = (n + 1) % 0
          rw [List.length_append, List.length_singleton, hlen, Nat.mod_zero,
            Nat.mod_zero]
        · show st.1.length ≤ 2 * ((n + 1) / 0)
          simpa using hcount
      · have hlt : n % B + 1 < B := by
          rw [List.length_append, List.length_singleton, hlen] at hfill
          have := Nat.mod_lt n hB
          omega
        obtain ⟨hmod, hdiv⟩ := succ_div_mod_of_mod_lt_pred hB hlt
        refine ⟨?_, ?_, hsize, hmem, hbatchnew⟩
        · show (st.2.1 ++ [item.1]).length = (n + 1) % B
          rw [List.length_append, List.length_singleton, hlen, hmod]
        · show st.1.length ≤ 2 * ((n + 1) / B)
          rw [hdiv]
          exact hcount
  · rw [if_neg hu]
    unfold bucketStep
    rw [if_neg hu]
    simpa using ⟨hlen, hcount, hsize, hmem, hbatch⟩

theorem usableCount_cons (usable : String → Bool) (it : String × Nat)
    (rest : List (String × Nat)) :
    usableCount usable (it :: rest) =
      (if usable (parseXName it.1) then 1 else 0) + usableCount usable rest := by
  unfold usableCount
  rw [List.filter_cons]
  by_cases hu : usable (parseXName it.1) = true
  · simp only [hu, if_pos, List.length_cons]
    omega
  · simp only [hu]
    simp

theorem goodState_fold (usable : String → Bool) (B : Nat) :
    ∀ (items : List (String × Nat)) (n : Nat) (st : BucketState),
      goodState usable B n st →
      goodState usable B (n + usableCount usable items)
        (items.foldl (bucketStep usable B) st) := by
  intro items
  induction items with
  | nil =>
    intro n st h
    simpa [usableCount] using h
  | cons it rest ih =>
    intro n st h
    rw [List.foldl_cons, usableCount_cons, ← Nat.add_assoc]
    exact ih _ _ (goodState_step usable B n st it h)

theorem goodState_loop (usable : String → Bool) (B : Nat)
    (items : List (String × Nat)) :
    goodState usable B (usableCount usable items)
      (bucketLoopState usable B items) := by
  have h := goodState_fold usable B items 0 ([], [], [])
    (goodState_init usable B)
  rw [Nat.zero_add] at h
  exact h

/-- The leftover batch after the loop always holds `N' mod B` entries. -/
theorem loopLeftover_length (usable : String → Bool) (B : Nat)
    (items : List (String × Nat)) :
    (loopLeftover usable B items).length = usableCount usable items % B :=
  (goodState_loop usable B items).1

/-- Case analysis of `buildBuckets` in terms of the loop results. -/
theorem buildBuckets_eq (usable : String → Bool) (B : Nat)
    (items : List (String × Nat)) :
    buildBuckets usable B items =
      if 1 < (loopLeftover usable B items).length ∧
          lastEntryUsable usable items = true then
        loopBuckets usable B items ++ [loopLeftover usable B items]
      else
        loopBuckets usable B items := by
  unfold buildBuckets loopBuckets loopLeftover
  by_cases hgt : 1 < (bucketLoopState usable B items).2.1.length
  · rw [if_pos hgt]
    by_cases hup : lastEntryUsable usable items = true
    · rw [if_pos hup, if_pos ⟨hgt, hup⟩]
    · rw [if_neg (by simpa using hup), if_neg (by tauto)]
  · rw [if_neg hgt, if_neg (by tauto)]

/-- Every file name in any produced bucket has a usable parsed key. -/
theorem buildBuckets_mem_usable (usable : String → Bool) (B : Nat)
    (items : List (String × Nat)) :
    ∀ b ∈ buildBuckets usable B items, ∀ x ∈ b,
      usable (parseXName x) = true := by
  obtain ⟨hlen, hcount, hsize, hmem, hbatch⟩ := goodState_loop usable B items
  intro b hb x hx
  rw [buildBuckets_eq] at hb
  by_cases hc : 1 < (loopLeftover usable B items).length ∧
      lastEntryUsable usable items = true
  · rw [if_pos hc] at hb
    rcases List.mem_append.mp hb with hb | hb
    · exact hmem b hb x hx
    · rcases List.mem_singleton.mp hb with rfl
      exact hbatch x hx
  · rw [if_neg hc] at hb
    exact hmem b hb x hx

/-- Every produced bucket has at most `B` members (for positive `B`). -/
theorem buildBuckets_size_le (usable : String → Bool) (B : Nat)
    (items : List (String × Nat)) (hB : 0 < B) :
    ∀ b ∈ buildBuckets usable B items, b.length ≤ B := by
  obtain ⟨hlen, hcount, hsize, hmem, hbatch⟩ := goodState_loop usable B items
  intro b hb
  rw [buildBuckets_eq] at hb
  by_cases hc : 1 < (loopLeftover usable B items).length ∧
      lastEntryUsable usable items = true
  · rw [if_pos hc] at hb
    rcases List.mem_append.mp hb with hb | hb
    · exact hsize b hb
    · rcases List.mem_singleton.mp hb with rfl
      rw [loopLeftover_length]
      exact Nat.le_of_lt (Nat.mod_lt _ hB)
  · rw [if_neg hc] at hb
    exact hsize b hb

/-- The number of produced buckets is at most twice the ceiling of
`N' / B` (for positive `B`): each full batch contributes at most two
buckets and the leftover batch at most one. -/
theorem buildBuckets_count_le (usable : String → Bool) (B : Nat)
    (items : List (String × Nat)) (hB : 0 < B) :
    (buildBuckets usable B items).length ≤
      2 * ((usableCount usable items + B - 1) / B) := by
  obtain ⟨hlen, hcount, hsize, hmem, hbatch⟩ := goodState_loop usable B items
  have hmono : usableCount usable items / B ≤
      (usableCount usable items + B - 1) / B :=
    Nat.div_le_div_right (by omega)
  have hbase : (bucketLoopState usable B items).1.length ≤
      2 * ((usableCount usable items + B - 1) / B) := by
    generalize hq : usableCount usable items / B = q at hcount hmono
    generalize hr : (usableCount usable items + B - 1) / B = r at hmono ⊢
    omega
  rw [buildBuckets_eq]
  by_cases hc : 1 < (loopLeftover usable B items).length ∧
      lastEntryUsable usable items = true
  · rw [if_pos hc]
    have hne : usableCount usable items % B ≠ 0 := by
      have := hc.1
      rw [loopLeftover_length] at this
      omega
    have hceil := ceil_div_of_mod_ne_zero hB hne
    rw [List.length_append, List.length_singleton, hceil]
    show (bucketLoopState usable B items).1.length + 1 ≤ _
    generalize hq : usableCount usable items / B = q at hcount hceil ⊢
    omega
  · rw [if_neg hc]
    exact hbase

/-! ### Splitting and normalization lemmas -/

theorem pySplitAux_word (w : List Char)
    (hw : ∀ c ∈ w, isPyWhitespace c = false) :
    ∀ (rest acc : List Char),
      pySplitAux (w ++ rest) acc = pySplitAux rest (w.reverse ++ acc) := by
  induction w with
  | nil =>
    intro rest acc
    simp
  | cons c w ih =>
    intro rest acc
    have hc : isPyWhitespace c = false := hw c (List.mem_cons_self c w)
    have hw2 : ∀ d ∈ w, isPyWhitespace d = false := fun d hd =>
      hw d (List.mem_cons_of_mem c hd)
    rw [List.cons_append]
    show pySplitAux (c :: (w ++ rest)) acc = _
    rw [pySplitAux, hc]
    simp only [Bool.false_eq_true, if_false]
    rw [ih hw2 rest (c :: acc), List.reverse_cons, List.append_assoc]
    simp

theorem pySplit_word (w : List Char) (hne : w ≠ [])
    (hw : ∀ c ∈ w, isPyWhitespace c = false) :
    pySplit w = [w] := by
  unfold pySplit
  have h := pySplitAux_word w hw [] []
  rw [List.append_nil] at h
  rw [h, pySplitAux]
  simp [hne]

theorem pySplit_word_space (w rest : List Char) (hne : w ≠ [])
    (hw : ∀ c ∈ w, isPyWhitespace c = false) :
    pySplit (w ++ ' ' :: rest) = w :: pySplit rest := by
  unfold pySplit
  rw [pySplitAux_word w hw (' ' :: rest) [], List.append_nil, pySplitAux]
  have : isPyWhitespace ' ' = true := by decide
  rw [this]
  simp [hne]

theorem pySplit_intercalate (ws : List (List Char))
    (hne : ∀ w ∈ ws, w ≠ [])
    (hnw : ∀ w ∈ ws, ∀ c ∈ w, isPyWhitespace c = false) :
    pySplit (List.intercalate [' '] ws) = ws := by
  induction ws with
  | nil => rfl
  | cons w ws ih =>
    have hwne : w ≠ [] := hne w (List.mem_cons_self w ws)
    have hwnw : ∀ c ∈ w, isPyWhitespace c = false :=
      hnw w (List.mem_cons_self w ws)
    cases ws with
    | nil =>
      rw [show List.intercalate [' '] [w] = w by simp [List.intercalate]]
      exact pySplit_word w hwne hwnw
    | cons y ys =>
      rw [show List.intercalate [' '] (w :: y :: ys) =
          w ++ ' ' :: List.intercalate [' '] (y :: ys) by
        simp [List.intercalate, List.intersperse_cons_cons]]
      rw [pySplit_word_space _ _ hwne hwnw]
      rw [ih (fun v hv => hne v (List.mem_cons_of_mem w hv))
        (fun v hv => hnw v (List.mem_cons_of_mem w hv))]

theorem map_bar_intercalate (ws : List (List Char))
    (hnw : ∀ w ∈ ws, ∀ c ∈ w, isPyWhitespace c = false) :
    (List.intercalate [' '] ws).map (fun c => if c = ' ' then '|' else c) =
      List.intercalate ['|'] ws := by
  induction ws with
  | nil => rfl
  | cons w ws ih =>
    have hfix : w.map (fun c => if c = ' ' then '|' else c) = w := by
      have h1 : w.map (fun c => if c = ' ' then '|' else c) = w.map id := by
        refine List.map_congr_left ?_
        intro c hc
        have := hnw w (List.mem_cons_self w ws) c hc
        have hcs : c ≠ ' ' := by
          intro h
          rw [h] at this
          exact absurd this (by decide)
        simp [hcs]
      rw [h1, List.map_id]
    cases ws with
    | nil =>
      rw [show List.intercalate [' '] [w] = w by simp [List.intercalate],
        show List.intercalate ['|'] [w] = w by simp [List.intercalate]]
      exact hfix
    | cons y ys =>
      rw [show List.intercalate [' '] (w :: y :: ys) =
          w ++ ' ' :: List.intercalate [' '] (y :: ys) by
        simp [List.intercalate, List.intersperse_cons_cons]]
      rw [show List.intercalate ['|'] (w :: y :: ys) =
          w ++ '|' :: List.intercalate ['|'] (y :: ys) by
        simp [List.intercalate, List.intersperse_cons_cons]]
      rw [List.map_append, hfix, List.map_cons]
      rw [ih (fun v hv => hnw v (List.mem_cons_of_mem w hv))]
      simp

theorem pySplit_spaced_append (chars : List Char)
    (h : ∀ c ∈ chars, isPyWhitespace c = false) :
    pySplit (List.intersperse ' ' chars ++ [' ', '|']) =
      chars.map (fun c => [c]) ++ [['|']] := by
  induction chars with
  | nil => rfl
  | cons c cs ih =>
    have hc : isPyWhitespace c = false := h c (List.mem_cons_self c cs)
    have hcs : ∀ d ∈ cs, isPyWhitespace d = false := fun d hd =>
      h d (List.mem_cons_of_mem c hd)
    cases cs with
    | nil =>
      show pySplit ([c] ++ [' ', '|']) = [[c], ['|']]
      rw [show ([c] ++ [' ', '|'] : List Char) = [c] ++ ' ' :: ['|'] from rfl]
      rw [pySplit_word_space [c] ['|'] (by simp)
        (by intro d hd; rcases List.mem_singleton.mp hd with rfl; exact hc)]
      rfl
    | cons d ds =>
      rw [List.intersperse_cons_cons, List.cons_append, List.cons_append]
      rw [show c :: ' ' :: (List.intersperse ' ' (d :: ds) ++ [' ', '|']) =
          [c] ++ ' ' :: (List.intersperse ' ' (d :: ds) ++ [' ', '|']) from rfl]
      rw [pySplit_word_space [c] _ (by simp)
        (by intro e he; rcases List.mem_singleton.mp he with rfl; exact hc)]
      rw [ih hcs]
      rfl

/-! ### Claim C1 -/

/-- Claim C1, counterexample: with duration table `[a, b, c]`, only `a`
and `b` usable, and bucket size 3, the loop ends with the leftover batch
`[a, b]` of 2 > 1 entries, yet no bucket is produced at all — the source
re-tests the stale loop variable `x` (here the unusable last entry `c`)
before appending, so "appended if and only if it contains more than one
entry" is false. -/
theorem C1_counterexample :
    1 < (loopLeftover usableAB 3 [("a", 1), ("b", 1), ("c", 1)]).length ∧
    buildBuckets usableAB 3 [("a", 1), ("b", 1), ("c", 1)] ≠
      loopBuckets usableAB 3 [("a", 1), ("b", 1), ("c", 1)] ++
        [loopLeftover usableAB 3 [("a", 1), ("b", 1), ("c", 1)]] := by
  constructor
  · decide
  · decide

/-- Claim C1 (amended): the final, possibly-partial batch is appended as
exactly one more bucket if and only if it contains more than one entry
*and* the parsed key of the last duration-table entry is in the usable
set (the source re-tests the stale loop variable `x` at line 104). -/
theorem C1_leftover_iff (usable : String → Bool) (bucket_size : Nat)
    (items : List (String × Nat)) :
    buildBuckets usable bucket_size items =
      loopBuckets usable bucket_size items ++
        [loopLeftover usable bucket_size items] ↔
    1 < (loopLeftover usable bucket_size items).length ∧
      lastEntryUsable usable items = true := by
  rw [buildBuckets_eq]
  constructor
  · intro h
    by_contra hc
    rw [if_neg hc] at h
    have hlen := congrArg List.length h
    rw [List.length_append, List.length_singleton] at hlen
    omega
  · intro hc
    rw [if_pos hc]

/-! ### Claim C2 -/

/-- Claim C2, counterexample: with bucket size 3 and a full batch whose
maximum duration 3000 exceeds the threshold, the produced buckets are
`[[a], [b, c]]`: the *first* bucket has `⌊3/2⌋ = 1` member, not
`⌈3/2⌉ = 2` as the claim states. -/
theorem C2_counterexample :
    buildBuckets usableAll 3 [("a", 3000), ("b", 1), ("c", 1)] =
      [["a"], ["b", "c"]] ∧
    ¬(((buildBuckets usableAll 3
        [("a", 3000), ("b", 1), ("c", 1)]).headD []).length = (3 + 1) / 2) := by
  constructor
  · decide
  · decide

/-- Claim C2 (amended): when a batch fills to `bucket_size = B ≥ 2` and its
maximum duration exceeds `HALF_BATCHSIZE_TIME`, the step appends exactly
two buckets, the first of size `⌊B/2⌋` and the second of size `⌈B/2⌉`
(the claim had the two sizes swapped). -/
theorem C2_split_sizes (usable : String → Bool) (B : Nat) (st : BucketState)
    (item : String × Nat) (hu : usable (parseXName item.1) = true)
    (hfill : (st.2.1 ++ [item.1]).length = B) (hB : 2 ≤ B)
    (hmax : HALF_BATCHSIZE_TIME < listMax (st.2.2 ++ [item.2])) :
    bucketStep usable B st item =
      (st.1 ++ [(st.2.1 ++ [item.1]).take (B / 2),
        (st.2.1 ++ [item.1]).drop (B / 2)], [], []) ∧
    ((st.2.1 ++ [item.1]).take (B / 2)).length = B / 2 ∧
    ((st.2.1 ++ [item.1]).drop (B / 2)).length = (B + 1) / 2 := by
  refine ⟨?_, ?_, ?_⟩
  · unfold bucketStep
    rw [if_pos hu]
    simp only []
    rw [if_pos hfill, if_pos ⟨hB, hmax⟩]
  · rw [List.length_take, hfill]
    omega
  · rw [List.length_drop, hfill]
    omega

theorem C2_split_sizes_witness :
    bucketStep usableAll 3 ([], ["a", "b"], [3000, 1]) ("c", 1) =
      ([["a"], ["b", "c"]], [], []) ∧
    (((["a", "b"] : List String) ++ ["c"]).take (3 / 2)).length = 3 / 2 ∧
    (((["a", "b"] : List String) ++ ["c"]).drop (3 / 2)).length = (3 + 1) / 2 := by
  have h := C2_split_sizes usableAll 3 ([], ["a", "b"], [3000, 1]) ("c", 1)
    (by decide) (by decide) (by decide) (by decide)
  refine ⟨?_, h.2.1, h.2.2⟩
  rw [h.1]
  decide

/-! ### Claim C3 -/

/-- Claim C3, counterexample: two usable entries, both longer than the
threshold, bucket size 2: the full batch is split, so 2 buckets are
produced while `⌈N'/B⌉ = ⌈2/2⌉ = 1` — the claimed bound fails. -/
theorem C3_counterexample :
    (buildBuckets usableAll 2 [("a", 3000), ("b", 2500)]).length = 2 ∧
    usableCount usableAll [("a", 3000), ("b", 2500)] = 2 ∧
    ¬((buildBuckets usableAll 2 [("a", 3000), ("b", 2500)]).length ≤
      (usableCount usableAll [("a", 3000), ("b", 2500)] + 2 - 1) / 2) := by
  refine ⟨by decide, by decide, by decide⟩

/-- Claim C3 (amended): for `B ≥ 2` the number of produced buckets is at
most `2⌈N'/B⌉` (each full batch may be split into two buckets, so the
claimed `⌈N'/B⌉` bound can be exceeded), and every produced bucket has at
most `B` members. -/
theorem C3_bucket_bounds (usable : String → Bool) (B : Nat)
    (items : List (String × Nat)) (hB : 2 ≤ B) :
    (buildBuckets usable B items).length ≤
      2 * ((usableCount usable items + B - 1) / B) ∧
    ∀ b ∈ buildBuckets usable B items, b.length ≤ B :=
  ⟨buildBuckets_count_le usable B items (by omega),
    buildBuckets_size_le usable B items (by omega)⟩

theorem C3_bucket_bounds_witness :
    (buildBuckets usableAll 2 [("a", 3000), ("b", 2500)]).length ≤
      2 * ((usableCount usableAll [("a", 3000), ("b", 2500)] + 2 - 1) / 2) :=
  (C3_bucket_bounds usableAll 2 [("a", 3000), ("b", 2500)] (by decide)).1

/-! ### Claim C4 -/

/-- Claim C4, counterexample: a sample-rate mismatch on the primary load
does *not* trigger the two-segment recovery path.  `loadMismatch` loads
`x.wav` successfully at 22050 Hz (≠ 44100) and would load both segment
files at the right rate, yet `_load_wav` raises `AssertionError` (the
`try` block catches only `RuntimeError`, not the failed `assert`), instead
of recovering with `.ok (1 + 2)`. -/
theorem C4_counterexample :
    hidden_load_wav loadMismatch (fun a b => a + b) id 44100 "x.wav" =
      .error .assertionError ∧
    loadMismatch "x.wav" = .ok (7, 22050) ∧
    hidden_load_wav loadMismatch (fun a b => a + b) id 44100 "x.wav" ≠
      .ok (id (1 + 2)) := by
  have h1 : hidden_load_wav loadMismatch (fun a b => a + b) id 44100 "x.wav" =
      .error .assertionError := rfl
  refine ⟨h1, rfl, ?_⟩
  rw [h1]
  intro h
  exact Except.noConfusion h

/-- Claim C4 (amended): only a `RuntimeError` on the primary load (a
`torchaudio.load` failure) triggers the two-segment recovery path — which
then concatenates the segments and applies the mono-downmix/resample
post-processing; a sample-rate mismatch on a *successful* primary load
raises an uncaught `AssertionError` and is immediately fatal; a matching
primary load returns the post-processed waveform; and the recovery path
itself fails fatally when either segment fails to load (the `RuntimeError`
propagates) or either segment's sample rate mismatches (failed
`assert`). -/
theorem C4_load_paths {W : Type} (load : String → Except Unit (W × Nat))
    (cat : W → W → W) (meanResample : W → W) (rate : Nat) (path : String) :
    (∀ w sr, load path = .ok (w, sr) → sr ≠ rate →
      hidden_load_wav load cat meanResample rate path =
        .error .assertionError) ∧
    (∀ w, load path = .ok (w, rate) →
      hidden_load_wav load cat meanResample rate path =
        .ok (meanResample w)) ∧
    (∀ e w1 w2, load path = .error e →
      load (segmentPath path "_(1)") = .ok (w1, rate) →
      load (segmentPath path "_(2)") = .ok (w2, rate) →
      hidden_load_wav load cat meanResample rate path =
        .ok (meanResample (cat w1 w2))) ∧
    (∀ e e1, load path = .error e →
      load (segmentPath path "_(1)") = .error e1 →
      hidden_load_wav load cat meanResample rate path =
        .error .runtimeError) ∧
    (∀ e w1 sr1 e2, load path = .error e →
      load (segmentPath path "_(1)") = .ok (w1, sr1) →
      load (segmentPath path "_(2)") = .error e2 →
      hidden_load_wav load cat meanResample rate path =
        .error .runtimeError) ∧
    (∀ e w1 sr1 w2 sr2, load path = .error e →
      load (segmentPath path "_(1)") = .ok (w1, sr1) →
      load (segmentPath path "_(2)") = .ok (w2, sr2) →
      sr1 ≠ rate →
      hidden_load_wav load cat meanResample rate path =
        .error .assertionError) ∧
    (∀ e w1 w2 sr2, load path = .error e →
      load (segmentPath path "_(1)") = .ok (w1, rate) →
      load (segmentPath path "_(2)") = .ok (w2, sr2) →
      sr2 ≠ rate →
      hidden_load_wav load cat meanResample rate path =
        .error .assertionError) := by
  refine ⟨?_, ?_, ?_, ?_, ?_, ?_, ?_⟩
  · intro w sr hload hsr
    unfold hidden_load_wav
    rw [hload]
    simp only [if_neg hsr]
  · intro w hload
    unfold hidden_load_wav
    rw [hload]
    simp
  · intro e w1 w2 hload h1 h2
    unfold hidden_load_wav
    rw [hload, h1, h2]
    simp
  · intro e e1 hload h1
    unfold hidden_load_wav
    rw [hload, h1]
  · intro e w1 sr1 e2 hload h1 h2
    unfold hidden_load_wav
    rw [hload, h1, h2]
  · intro e w1 sr1 w2 sr2 hload h1 h2 hsr1
    unfold hidden_load_wav
    rw [hload, h1, h2]
    simp [hsr1]
  · intro e w1 w2 sr2 hload h1 h2 hsr2
    unfold hidden_load_wav
    rw [hload, h1, h2]
    simp [hsr2]

theorem C4_load_paths_witness :
    hidden_load_wav loadMismatch (fun a b => a + b) id 44100 "x.wav" =
      .error .assertionError ∧
    hidden_load_wav loadRecover (fun a b => a + b) id 44100 "y.wav" =
      .ok (id (1 + 2)) ∧
    hidden_load_wav loadAllFail (fun a b => a + b) id 44100 "z.wav" =
      .error .runtimeError ∧
    hidden_load_wav loadSegMismatch (fun a b => a + b) id 44100 "w.wav" =
      .error .assertionError :=
  ⟨(C4_load_paths loadMismatch (fun a b => a + b) id 44100 "x.wav").1
      7 22050 rfl (by decide),
    (C4_load_paths loadRecover (fun a b => a + b) id 44100 "y.wav").2.2.1
      () 1 2 rfl rfl rfl,
    (C4_load_paths loadAllFail (fun a b => a + b) id 44100 "z.wav").2.2.2.1
      () () rfl rfl,
    (C4_load_paths loadSegMismatch (fun a b => a + b) id 44100
        "w.wav").2.2.2.2.2.1 () 1 22050 2 44100 rfl rfl rfl (by decide)⟩

/-! ### Claim C5 -/

/-- Claim C5: every id equal to the dictionary's unknown index is dropped
from `HiddenDataset`'s encoded label sequence — the unknown index never
appears in the output, the encoded length never exceeds the token count
(plus an optional end-of-sequence id), and on a concrete transcript with
unknown tokens it is strictly shorter than the token count. -/
theorem C5_unknown_dropped :
    (∀ (lookup : String → Option Nat) (unk_index eos_index : Nat)
        (appendEos : Bool) (y : String),
      unk_index ∉ hiddenEncode lookup unk_index eos_index appendEos y) ∧
    (∀ (lookup : String → Option Nat) (unk_index eos_index : Nat)
        (appendEos : Bool) (y : String),
      (hiddenEncode lookup unk_index eos_index appendEos y).length ≤
        (pyStrSplit y).length + (if appendEos then 1 else 0)) ∧
    (hiddenEncode exampleLookup 3 2 true "Q Q").length <
      (pyStrSplit "Q Q").length := by
  refine ⟨?_, ?_, by decide⟩
  · intro lookup unk_index eos_index appendEos y h
    have := List.of_mem_filter h
    simp at this
  · intro lookup unk_index eos_index appendEos y
    calc (hiddenEncode lookup unk_index eos_index appendEos y).length
        ≤ (encode_line lookup unk_index eos_index appendEos
            (pyStrSplit y)).length := List.length_filter_le _ _
      _ = (pyStrSplit y).length + (if appendEos then 1 else 0) := by
          unfold encode_line
          rw [List.length_append, List.length_map]
          cases appendEos <;> simp

/-! ### Claim C6 -/

/-- Claim C6: `SequenceDataset`'s normalization uppercases the transcript,
turns every non-space character into a stand-alone token, substitutes the
boundary symbol for the spaces, and appends a trailing boundary token: on
`"the cat sat"` it yields exactly `"T H E | C A T | S A T |"`, and in
general (for transcripts without exotic whitespace) the token sequence of
the result is one token per processed character plus a final boundary. -/
theorem C6_normalization :
    seqProcessTrans "the cat sat" = "T H E | C A T | S A T |" ∧
    ∀ t : String, (∀ c ∈ (pyReplaceSpaceWithBar (pyUpper t)).data,
        isPyWhitespace c = false) →
      pySplit (seqProcessTrans t).data =
        ((pyReplaceSpaceWithBar (pyUpper t)).data.map (fun c => [c])) ++
          [['|']] := by
  constructor
  · decide
  · intro t h
    have hdata : (seqProcessTrans t).data =
        List.intersperse ' ' ((pyReplaceSpaceWithBar (pyUpper t)).data) ++
          [' ', '|'] := by
      unfold seqProcessTrans pyJoinSpaced
      rw [String.data_append]
    rw [hdata]
    exact pySplit_spaced_append _ h

theorem C6_normalization_witness :
    pySplit (seqProcessTrans "the cat").data =
      ((pyReplaceSpaceWithBar (pyUpper "the cat")).data.map (fun c => [c])) ++
        [['|']] :=
  C6_normalization.2 "the cat" (by decide)

/-! ### Claim C7 -/

/-- Claim C7: an entry whose parsed key is not usable is never a member of
any produced bucket; concretely, with four duration-table entries of which
`d` has no transcript, the usable set (audio keys with transcripts) has
size 3 and `s/d.flac` appears in no bucket. -/
theorem C7_skip_nonusable :
    (∀ (usable : String → Bool) (bucket_size : Nat)
        (items : List (String × Nat)),
      ∀ b ∈ buildBuckets usable bucket_size items, ∀ x ∈ b,
        usable (parseXName x) = true) ∧
    ((exampleX.map parseXName).filter
      (fun k => (exampleTranscripts k).isSome)).dedup.length = 3 ∧
    ∀ b ∈ buildBuckets (usableKey exampleX exampleTranscripts) 2
        (exampleX.zip [10, 10, 10, 10]), "s/d.flac" ∉ b := by
  refine ⟨buildBuckets_mem_usable, by decide, by decide⟩

theorem C7_skip_nonusable_witness :
    usableKey exampleX exampleTranscripts (parseXName "s/a.flac") = true :=
  C7_skip_nonusable.1 (usableKey exampleX exampleTranscripts) 2
    (exampleX.zip [10, 10, 10, 10]) ["s/a.flac", "s/b.flac"] (by decide)
    "s/a.flac" (by decide)

/-! ### Claim C8 -/

/-- Claim C8: on any transcript whose uppercased form is a single-space
join of non-empty whitespace-free words, `HiddenDataset`'s normalization
and `SequenceDataset`'s normalization produce exactly the same string
(they differ only in how word boundaries are found: `split()`+`"|".join`
versus `replace(" ", "|")`). -/
theorem C8_hidden_seq_agree (t : String) (ws : List (List Char))
    (hdata : (pyUpper t).data = List.intercalate [' '] ws)
    (hne : ∀ w ∈ ws, w ≠ [])
    (hnw : ∀ w ∈ ws, ∀ c ∈ w, isPyWhitespace c = false) :
    hiddenProcessTrans t = seqProcessTrans t := by
  unfold hiddenProcessTrans seqProcessTrans
  have hinner : List.intercalate ['|'] (pySplit (pyUpper t).data) =
      (pyReplaceSpaceWithBar (pyUpper t)).data := by
    show _ = (pyUpper t).data.map (fun c => if c = ' ' then '|' else c)
    rw [hdata, pySplit_intercalate ws hne hnw, map_bar_intercalate ws hnw]
  rw [hinner]

theorem C8_hidden_seq_agree_witness :
    hiddenProcessTrans "the cat" = seqProcessTrans "the cat" :=
  C8_hidden_seq_agree "the cat" [['T', 'H', 'E'], ['C', 'A', 'T']]
    (by decide) (by decide) (by decide)

/-! ### Claim C9 -/

/-- Claim C9: `SequenceDataset.collate_fn` fails its assertion for every
input list whose length is not exactly 1, and for a singleton input
returns the item's (waveforms, labels) pair unchanged. -/
theorem C9_collate (A B : Type) :
    (∀ items : List (A × B), items.length ≠ 1 →
      collate_fn items = .error .assertionError) ∧
    (∀ p : A × B, collate_fn [p] = .ok p) := by
  constructor
  · intro items h
    match items with
    | [] => rfl
    | [p] => exact absurd rfl h
    | p :: q :: rest => rfl
  · intro p
    rfl

theorem C9_collate_witness :
    collate_fn ([] : List (Nat × Nat)) = .error .assertionError ∧
    collate_fn [((1 : Nat), (2 : Nat))] = .ok (1, 2) :=
  ⟨(C9_collate Nat Nat).1 [] (by decide), (C9_collate Nat Nat).2 (1, 2)⟩

/-! ### Claim C10 -/

/-- Claim C10: for every valid bucket index of a constructed
`SequenceDataset`, every member file's parsed key is present in the
encoded-label map `self.Y` (the lookup in `__getitem__` never fails), and
`__getitem__` returns two parallel lists whose lengths both equal the
bucket's length. -/
theorem C10_getitem_safe {W : Type} (loadWav : String → W) (X : List String)
    (transcripts : String → Option String) (enc : String → List Nat)
    (bucket_size : Nat) (lens : List Nat) (i : Nat)
    (hi : i < (buildBuckets (usableKey X transcripts) bucket_size
      (X.zip lens)).length) :
    (∀ x ∈ (buildBuckets (usableKey X transcripts) bucket_size
        (X.zip lens)).get ⟨i, hi⟩,
      (selfY X transcripts enc (parseXName x)).isSome = true) ∧
    (seqGetitem loadWav X transcripts enc
        ((buildBuckets (usableKey X transcripts) bucket_size
          (X.zip lens)).get ⟨i, hi⟩)).1.length =
      ((buildBuckets (usableKey X transcripts) bucket_size
        (X.zip lens)).get ⟨i, hi⟩).length ∧
    (seqGetitem loadWav X transcripts enc
        ((buildBuckets (usableKey X transcripts) bucket_size
          (X.zip lens)).get ⟨i, hi⟩)).2.length =
      ((buildBuckets (usableKey X transcripts) bucket_size
        (X.zip lens)).get ⟨i, hi⟩).length := by
  refine ⟨?_, List.length_map _ _, List.length_map _ _⟩
  intro x hx
  have hmem := List.get_mem (buildBuckets (usableKey X transcripts)
    bucket_size (X.zip lens)) i hi
  have husable := buildBuckets_mem_usable (usableKey X transcripts)
    bucket_size (X.zip lens) _ hmem x hx
  unfold selfY
  rw [if_pos husable]
  unfold usableKey at husable
  have hsome := (Bool.and_eq_true _ _ |>.mp husable).2
  obtain ⟨v, hv⟩ := Option.isSome_iff_exists.mp hsome
  rw [hv]
  rfl

theorem C10_getitem_safe_witness :
    (selfY exampleX exampleTranscripts (fun _ => ([] : List Nat))
      (parseXName "s/a.flac")).isSome = true :=
  (C10_getitem_safe (fun _ => (0 : Nat)) exampleX exampleTranscripts
    (fun _ => []) 2 [10, 10, 10, 10] 0 (by decide)).1 "s/a.flac" (by decide)
